import Mathlib

/-!
Verification of the time-dependent generalized Hartree-Fock / Kohn-Sham
linear-response module (pyscf/tdscf/ghf.py): the Tamm-Dancoff and full
random-phase response operator builders (gen_tda_operation,
gen_tdhf_operation), the dense A/B assembler (get_ab), the Koopmans
initial-guess generator (TDA.init_guess), and the indefinite-metric
root normalization (TDHF.kernel.norm_xy).

Orbital energies, coefficients and amplitudes are embedded over an
arbitrary commutative ring with a star operation (instantiated at ℚ in
concrete evaluations; numpy's `.conj()` is `star`).  The square root in
norm_xy forces that function to be embedded over ℝ.
-/

set_option linter.unusedSectionVars false

section ResponseOperator

variable {K : Type} [CommRing K] [StarRing K]
variable {nao nmo nocc nvir : ℕ}

/-- Entry test of the `sym_forbid` boolean mask built by both operator
builders: `(orbsym_in_d2h[occidx,None] ^ orbsym_in_d2h[viridx]) != wfnsym`,
where both the orbital irrep ids and the target irrep id have been reduced
modulo 10 ("convert to D2h subgroup"). -/
def sym_forbid (orbsym : Fin nmo → ℕ) (wfnsym : ℕ)
    (occidx : Fin nocc → Fin nmo) (viridx : Fin nvir → Fin nmo)
    (i : Fin nocc) (a : Fin nvir) : Bool :=
  decide ((orbsym (occidx i) % 10) ^^^ (orbsym (viridx a) % 10) ≠ wfnsym % 10)

/-- In-place masking `zs[:, sym_forbid] = 0`: entries at forbidden
(occupied, virtual) pairs are replaced by zero. -/
def maskZero (forbid : Fin nocc → Fin nvir → Bool)
    (z : Matrix (Fin nocc) (Fin nvir) K) : Matrix (Fin nocc) (Fin nvir) K :=
  fun i a => if forbid i a then 0 else z i a

/-- The conditional `if wfnsym is not None and mol.symmetry:` guarding every
use of the mask: `none` models the unfiltered case (no wavefunction irrep
requested, or no symmetry information), `some forbid` the filtered one. -/
def applySym (sym : Option (Fin nocc → Fin nvir → Bool))
    (z : Matrix (Fin nocc) (Fin nvir) K) : Matrix (Fin nocc) (Fin nvir) K :=
  match sym with
  | none => z
  | some forbid => maskZero forbid z

/-- Column slice `mo_coeff[:, idx]` (used for orbo = mo_coeff[:,occidx] and
orbv = mo_coeff[:,viridx]). -/
def sliceCols {k : ℕ} (C : Matrix (Fin nao) (Fin nmo) K)
    (idx : Fin k → Fin nmo) : Matrix (Fin nao) (Fin k) K :=
  fun p i => C p (idx i)

/-- Occupied-occupied Fock block of gen_tda_operation: with `fock_ao = None`
it is `numpy.diag(mo_energy[occidx])`; with an explicit Fock matrix it is
`reduce(numpy.dot, (mo_coeff.conj().T, fock_ao, mo_coeff))` sliced at
`[occidx[:,None], occidx]`. -/
def tda_foo (mo_energy : Fin nmo → K) (mo_coeff : Matrix (Fin nao) (Fin nmo) K)
    (occidx : Fin nocc → Fin nmo)
    (fock_ao : Option (Matrix (Fin nao) (Fin nao) K)) :
    Matrix (Fin nocc) (Fin nocc) K :=
  match fock_ao with
  | none => Matrix.diagonal (fun i => mo_energy (occidx i))
  | some f =>
      let fock := mo_coeff.conjTranspose * f * mo_coeff
      fun i j => fock (occidx i) (occidx j)

/-- Virtual-virtual Fock block of gen_tda_operation (same construction as
`tda_foo`, sliced at the virtual indices). -/
def tda_fvv (mo_energy : Fin nmo → K) (mo_coeff : Matrix (Fin nao) (Fin nmo) K)
    (viridx : Fin nvir → Fin nmo)
    (fock_ao : Option (Matrix (Fin nao) (Fin nao) K)) :
    Matrix (Fin nvir) (Fin nvir) K :=
  match fock_ao with
  | none => Matrix.diagonal (fun a => mo_energy (viridx a))
  | some f =>
      let fock := mo_coeff.conjTranspose * f * mo_coeff
      fun a b => fock (viridx a) (viridx b)

/-- Occupied-occupied Fock block of gen_tdhf_operation.  The projection of
an explicit Fock matrix is commented out in the source (lines 438-444):
`foo = numpy.diag(mo_energy[occidx])` is used whatever `fock_ao` is, so the
`fock_ao` argument is accepted but ignored. -/
def tdhf_foo (mo_energy : Fin nmo → K) (occidx : Fin nocc → Fin nmo)
    (_fock_ao : Option (Matrix (Fin nao) (Fin nao) K)) :
    Matrix (Fin nocc) (Fin nocc) K :=
  Matrix.diagonal (fun i => mo_energy (occidx i))

/-- Virtual-virtual Fock block of gen_tdhf_operation: always
`numpy.diag(mo_energy[viridx])`, the `fock_ao` argument is ignored. -/
def tdhf_fvv (mo_energy : Fin nmo → K) (viridx : Fin nvir → Fin nmo)
    (_fock_ao : Option (Matrix (Fin nao) (Fin nao) K)) :
    Matrix (Fin nvir) (Fin nvir) K :=
  Matrix.diagonal (fun a => mo_energy (viridx a))

/-- Body of `vind` from gen_tda_operation for one trial block of the batch
(the python code maps this computation over the leading batch axis):

* `dmov = lib.einsum('xov,qv,po->xpq', zs, orbv.conj(), orbo)`
* `v1ao = vresp(dmov)`
* `v1ov = lib.einsum('xpq,qv,po->xov', v1ao, orbv, orbo.conj())`
* `v1ov += lib.einsum('xqs,sp->xqp', zs, fvv)`
* `v1ov -= lib.einsum('xpr,sp->xsr', zs, foo)`

with the symmetry mask applied to the trial block on entry and to the
result on exit. -/
def tda_vind (foo : Matrix (Fin nocc) (Fin nocc) K)
    (fvv : Matrix (Fin nvir) (Fin nvir) K)
    (orbo : Matrix (Fin nao) (Fin nocc) K)
    (orbv : Matrix (Fin nao) (Fin nvir) K)
    (vresp : Matrix (Fin nao) (Fin nao) K → Matrix (Fin nao) (Fin nao) K)
    (sym : Option (Fin nocc → Fin nvir → Bool))
    (z : Matrix (Fin nocc) (Fin nvir) K) : Matrix (Fin nocc) (Fin nvir) K :=
  let zs := applySym sym z
  let dmov : Matrix (Fin nao) (Fin nao) K :=
    fun p q => ∑ o, ∑ v, zs o v * star (orbv q v) * orbo p o
  let v1ao := vresp dmov
  let v1ov : Matrix (Fin nocc) (Fin nvir) K :=
    fun o v => (∑ p, ∑ q, v1ao p q * orbv q v * star (orbo p o))
      + (∑ s, zs o s * fvv s v) - (∑ p, zs p v * foo o p)
  applySym sym v1ov

/-- Body of `vind` from gen_tdhf_operation for one (X, Y) pair of the batch
(`xys.reshape(-1,2,nocc,nvir)` splits each batch entry into the pair):

* `dms  = lib.einsum('xov,qv,po->xpq', xs, orbv.conj(), orbo)`
* `dms += lib.einsum('xov,pv,qo->xpq', ys, orbv, orbo.conj())`
* `v1ao = vresp(dms)`
* `v1ov = lib.einsum('xpq,po,qv->xov', v1ao, orbo.conj(), orbv)` plus the
  fvv/foo terms on xs,
* `v1vo = lib.einsum('xpq,qo,pv->xov', v1ao, orbo, orbv.conj())` plus the
  fvv/foo terms on ys,

masked on entry and exit; the function returns `hstack((v1ov, -v1vo))`,
modelled as the pair (v1ov, -v1vo). -/
def tdhf_vind (foo : Matrix (Fin nocc) (Fin nocc) K)
    (fvv : Matrix (Fin nvir) (Fin nvir) K)
    (orbo : Matrix (Fin nao) (Fin nocc) K)
    (orbv : Matrix (Fin nao) (Fin nvir) K)
    (vresp : Matrix (Fin nao) (Fin nao) K → Matrix (Fin nao) (Fin nao) K)
    (sym : Option (Fin nocc → Fin nvir → Bool))
    (x y : Matrix (Fin nocc) (Fin nvir) K) :
    Matrix (Fin nocc) (Fin nvir) K × Matrix (Fin nocc) (Fin nvir) K :=
  let xs := applySym sym x
  let ys := applySym sym y
  let dms : Matrix (Fin nao) (Fin nao) K :=
    fun p q => (∑ o, ∑ v, xs o v * star (orbv q v) * orbo p o)
      + (∑ o, ∑ v, ys o v * orbv p v * star (orbo q o))
  let v1ao := vresp dms
  let v1ov : Matrix (Fin nocc) (Fin nvir) K :=
    fun o v => (∑ p, ∑ q, v1ao p q * star (orbo p o) * orbv q v)
      + (∑ s, xs o s * fvv s v) - (∑ p, xs p v * foo o p)
  let v1vo : Matrix (Fin nocc) (Fin nvir) K :=
    fun o v => (∑ p, ∑ q, v1ao p q * orbo q o * star (orbv p v))
      + (∑ s, ys o s * fvv s v) - (∑ p, ys p v * foo o p)
  (applySym sym v1ov, -(applySym sym v1vo))

end ResponseOperator

section ClaimC3

variable {K : Type} [CommRing K] [StarRing K]
variable {nao nmo nocc nvir : ℕ}

/-- C3: for every trial block Z, when the density-response collaborator
`vresp` returns zero on every trial density and no symmetry filter is
active, the TDA apply operator returns exactly the Fock-commutator term
`Z·fvv − foo·Z`, with foo and fvv the diagonal occupied and virtual
orbital-energy matrices (the `fock_ao = None` branch of the builder).  The
python code returns this block reshaped to a flat row per batch entry. -/
theorem tda_vind_reduces_to_fock_commutator
    (mo_energy : Fin nmo → K) (mo_coeff : Matrix (Fin nao) (Fin nmo) K)
    (occidx : Fin nocc → Fin nmo) (viridx : Fin nvir → Fin nmo)
    (orbo : Matrix (Fin nao) (Fin nocc) K) (orbv : Matrix (Fin nao) (Fin nvir) K)
    (vresp : Matrix (Fin nao) (Fin nao) K → Matrix (Fin nao) (Fin nao) K)
    (z : Matrix (Fin nocc) (Fin nvir) K)
    (hv : ∀ d, vresp d = 0) :
    tda_vind (tda_foo mo_energy mo_coeff occidx none)
        (tda_fvv mo_energy mo_coeff viridx none) orbo orbv vresp none z
      = z * tda_fvv mo_energy mo_coeff viridx none
        - tda_foo mo_energy mo_coeff occidx none * z := by
  funext o v
  simp only [tda_vind, applySym, hv, Matrix.zero_apply, zero_mul, mul_zero,
    Finset.sum_const_zero, zero_add, Matrix.sub_apply, Matrix.mul_apply]
  congr 1
  exact Finset.sum_congr rfl fun p _ => mul_comm _ _

/-- Witness for C3: a concrete two-orbital instance (one occupied, one
virtual, orbital energies -1 and 1/2) with a vanishing response kernel;
the operator image of Z = [[3]] is Z·fvv − foo·Z = [[9/2]]. -/
theorem tda_vind_reduces_to_fock_commutator_witness :
    tda_vind
        (tda_foo ![-1, 1/2] (1 : Matrix (Fin 2) (Fin 2) ℚ) ![0] none) (tda_fvv ![-1, 1/2] (1 : Matrix (Fin 2) (Fin 2) ℚ) ![1] none)
        (fun p i => (1 : Matrix (Fin 2) (Fin 2) ℚ) p (![0] i))
        (fun p a => (1 : Matrix (Fin 2) (Fin 2) ℚ) p (![1] a))
        (fun _ => 0) none !![(3 : ℚ)]
      = !![(3 : ℚ)] * tda_fvv ![-1, 1/2] (1 : Matrix (Fin 2) (Fin 2) ℚ) ![1] none
        - tda_foo ![-1, 1/2] (1 : Matrix (Fin 2) (Fin 2) ℚ) ![0] none * !![(3 : ℚ)] :=
  tda_vind_reduces_to_fock_commutator ![-1, 1/2] 1 ![0] ![1] _ _ _ _
    (fun _ => rfl)

/-- Helper: a trial block supported only on symmetry-forbidden pairs is
annihilated by the input projection `zs[:, sym_forbid] = 0`. -/
theorem maskZero_eq_zero_of_support_forbidden
    (forbid : Fin nocc → Fin nvir → Bool) (z : Matrix (Fin nocc) (Fin nvir) K)
    (hz : ∀ i a, z i a ≠ 0 → forbid i a = true) :
    maskZero forbid z = 0 := by
  funext i a
  by_cases h : forbid i a
  · simp [maskZero, h]
  · have : z i a = 0 := by
      by_contra hne
      exact h (hz i a hne)
    simp [maskZero, h, this]

/-- Helper: the TDA operator body reads its trial block only through the
input symmetry projection. -/
theorem tda_vind_mask_congr
    (foo : Matrix (Fin nocc) (Fin nocc) K) (fvv : Matrix (Fin nvir) (Fin nvir) K)
    (orbo : Matrix (Fin nao) (Fin nocc) K) (orbv : Matrix (Fin nao) (Fin nvir) K)
    (vresp : Matrix (Fin nao) (Fin nao) K → Matrix (Fin nao) (Fin nao) K)
    (sym : Option (Fin nocc → Fin nvir → Bool))
    (z z' : Matrix (Fin nocc) (Fin nvir) K)
    (h : applySym sym z = applySym sym z') :
    tda_vind foo fvv orbo orbv vresp sym z = tda_vind foo fvv orbo orbv vresp sym z' := by
  unfold tda_vind
  rw [h]

/-- Helper: the RPA operator body reads its trial pair only through the
input symmetry projections. -/
theorem tdhf_vind_mask_congr
    (foo : Matrix (Fin nocc) (Fin nocc) K) (fvv : Matrix (Fin nvir) (Fin nvir) K)
    (orbo : Matrix (Fin nao) (Fin nocc) K) (orbv : Matrix (Fin nao) (Fin nvir) K)
    (vresp : Matrix (Fin nao) (Fin nao) K → Matrix (Fin nao) (Fin nao) K)
    (sym : Option (Fin nocc → Fin nvir → Bool))
    (x x' y y' : Matrix (Fin nocc) (Fin nvir) K)
    (hx : applySym sym x = applySym sym x') (hy : applySym sym y = applySym sym y') :
    tdhf_vind foo fvv orbo orbv vresp sym x y = tdhf_vind foo fvv orbo orbv vresp sym x' y' := by
  unfold tdhf_vind
  rw [hx, hy]

/-- Helper: the symmetry projection maps the zero block to zero. -/
theorem applySym_zero (sym : Option (Fin nocc → Fin nvir → Bool)) :
    applySym sym (0 : Matrix (Fin nocc) (Fin nvir) K) = 0 := by
  cases sym with
  | none => rfl
  | some forbid =>
      funext i a
      simp [applySym, maskZero]

/-- Helper: the TDA image of the zero trial block is zero when the response
collaborator maps the zero density to zero. -/
theorem tda_vind_zero_input
    (foo : Matrix (Fin nocc) (Fin nocc) K) (fvv : Matrix (Fin nvir) (Fin nvir) K)
    (orbo : Matrix (Fin nao) (Fin nocc) K) (orbv : Matrix (Fin nao) (Fin nvir) K)
    (vresp : Matrix (Fin nao) (Fin nao) K → Matrix (Fin nao) (Fin nao) K)
    (sym : Option (Fin nocc → Fin nvir → Bool))
    (hv0 : vresp 0 = 0) :
    tda_vind foo fvv orbo orbv vresp sym 0 = 0 := by
  simp only [tda_vind]
  rw [applySym_zero]
  have hdm : (fun p q => ∑ o, ∑ v,
      (0 : Matrix (Fin nocc) (Fin nvir) K) o v * star (orbv q v) * orbo p o)
      = (0 : Matrix (Fin nao) (Fin nao) K) := by
    funext p q
    simp
  rw [hdm, hv0]
  have hfin : (fun o v => (∑ p, ∑ q,
        (0 : Matrix (Fin nao) (Fin nao) K) p q * orbv q v * star (orbo p o))
      + (∑ s, (0 : Matrix (Fin nocc) (Fin nvir) K) o s * fvv s v)
      - (∑ p, (0 : Matrix (Fin nocc) (Fin nvir) K) p v * foo o p))
      = (0 : Matrix (Fin nocc) (Fin nvir) K) := by
    funext o v
    simp
  rw [hfin, applySym_zero]

/-- Helper: the RPA image of the zero trial pair is the zero pair when the
response collaborator maps the zero density to zero. -/
theorem tdhf_vind_zero_input
    (foo : Matrix (Fin nocc) (Fin nocc) K) (fvv : Matrix (Fin nvir) (Fin nvir) K)
    (orbo : Matrix (Fin nao) (Fin nocc) K) (orbv : Matrix (Fin nao) (Fin nvir) K)
    (vresp : Matrix (Fin nao) (Fin nao) K → Matrix (Fin nao) (Fin nao) K)
    (sym : Option (Fin nocc → Fin nvir → Bool))
    (hv0 : vresp 0 = 0) :
    tdhf_vind foo fvv orbo orbv vresp sym 0 0 = (0, 0) := by
  simp only [tdhf_vind]
  rw [applySym_zero]
  have hdm : (fun p q => (∑ o, ∑ v,
        (0 : Matrix (Fin nocc) (Fin nvir) K) o v * star (orbv q v) * orbo p o)
      + (∑ o, ∑ v, (0 : Matrix (Fin nocc) (Fin nvir) K) o v * orbv p v * star (orbo q o)))
      = (0 : Matrix (Fin nao) (Fin nao) K) := by
    funext p q
    simp
  rw [hdm, hv0]
  have h1 : (fun o v => (∑ p, ∑ q,
        (0 : Matrix (Fin nao) (Fin nao) K) p q * star (orbo p o) * orbv q v)
      + (∑ s, (0 : Matrix (Fin nocc) (Fin nvir) K) o s * fvv s v)
      - (∑ p, (0 : Matrix (Fin nocc) (Fin nvir) K) p v * foo o p))
      = (0 : Matrix (Fin nocc) (Fin nvir) K) := by
    funext o v
    simp
  have h2 : (fun o v => (∑ p, ∑ q,
        (0 : Matrix (Fin nao) (Fin nao) K) p q * orbo q o * star (orbv p v))
      + (∑ s, (0 : Matrix (Fin nocc) (Fin nvir) K) o s * fvv s v)
      - (∑ p, (0 : Matrix (Fin nocc) (Fin nvir) K) p v * foo o p))
      = (0 : Matrix (Fin nocc) (Fin nvir) K) := by
    funext o v
    simp
  rw [h1, h2, applySym_zero]
  simp

end ClaimC3

section ClaimC7

variable {K : Type} [CommRing K] [StarRing K]
variable {nao nocc nvir : ℕ}

/-- C7: a trial vector whose nonzero entries all lie at symmetry-forbidden
pairs is mapped to zero by both operators, assuming `vresp 0 = 0`: the
forbidden entries are zeroed on input projection, so the masked trial block
is zero, the trial density is zero, and the image (masked again on output)
is zero.  Stated for the TDA operator on a trial block z and for the RPA
operator on a trial pair (x, y). -/
theorem vind_on_forbidden_support_is_zero
    (foo : Matrix (Fin nocc) (Fin nocc) K) (fvv : Matrix (Fin nvir) (Fin nvir) K)
    (orbo : Matrix (Fin nao) (Fin nocc) K) (orbv : Matrix (Fin nao) (Fin nvir) K)
    (vresp : Matrix (Fin nao) (Fin nao) K → Matrix (Fin nao) (Fin nao) K)
    (forbid : Fin nocc → Fin nvir → Bool)
    (z x y : Matrix (Fin nocc) (Fin nvir) K)
    (hv0 : vresp 0 = 0)
    (hz : ∀ i a, z i a ≠ 0 → forbid i a = true)
    (hx : ∀ i a, x i a ≠ 0 → forbid i a = true)
    (hy : ∀ i a, y i a ≠ 0 → forbid i a = true) :
    tda_vind foo fvv orbo orbv vresp (some forbid) z = 0 ∧
    tdhf_vind foo fvv orbo orbv vresp (some forbid) x y = (0, 0) := by
  have hmz : applySym (some forbid) z = applySym (some forbid) (0 : Matrix (Fin nocc) (Fin nvir) K) := by
    rw [applySym_zero]
    exact maskZero_eq_zero_of_support_forbidden forbid z hz
  have hmx : applySym (some forbid) x = applySym (some forbid) (0 : Matrix (Fin nocc) (Fin nvir) K) := by
    rw [applySym_zero]
    exact maskZero_eq_zero_of_support_forbidden forbid x hx
  have hmy : applySym (some forbid) y = applySym (some forbid) (0 : Matrix (Fin nocc) (Fin nvir) K) := by
    rw [applySym_zero]
    exact maskZero_eq_zero_of_support_forbidden forbid y hy
  constructor
  · rw [tda_vind_mask_congr foo fvv orbo orbv vresp (some forbid) z 0 hmz]
    exact tda_vind_zero_input foo fvv orbo orbv vresp (some forbid) hv0
  · rw [tdhf_vind_mask_congr foo fvv orbo orbv vresp (some forbid) x 0 y 0 hmx hmy]
    exact tdhf_vind_zero_input foo fvv orbo orbv vresp (some forbid) hv0

/-- Witness for C7: one occupied and one virtual orbital whose pair is
forbidden; the trial blocks [[5]], [[7]], [[11]] are supported only on that
pair and are annihilated by both operators. -/
theorem vind_on_forbidden_support_is_zero_witness :
    tda_vind !![(2 : ℚ)] !![(3 : ℚ)] !![(1 : ℚ)] !![(1 : ℚ)]
        (fun d => d) (some (fun _ _ => true)) !![(5 : ℚ)] = 0 ∧
    tdhf_vind !![(2 : ℚ)] !![(3 : ℚ)] !![(1 : ℚ)] !![(1 : ℚ)]
        (fun d => d) (some (fun _ _ => true)) !![(7 : ℚ)] !![(11 : ℚ)] = (0, 0) :=
  vind_on_forbidden_support_is_zero !![(2 : ℚ)] !![(3 : ℚ)] !![(1 : ℚ)] !![(1 : ℚ)]
    (fun d => d) (fun _ _ => true) !![(5 : ℚ)] !![(7 : ℚ)] !![(11 : ℚ)]
    rfl (fun _ _ _ => rfl) (fun _ _ _ => rfl) (fun _ _ _ => rfl)

end ClaimC7

section ClaimC5

variable {K : Type} [CommRing K] [StarRing K]
variable {nao nmo nocc nvir : ℕ}

/-- C5 is refuted on the code: the RPA operator builder gen_tdhf_operation
accepts a `fock_ao` argument but never reads it (the projection code is
commented out), so its foo block stays the diagonal of the stored orbital
energies even when an explicit Fock matrix with a different
occupied-occupied projection is supplied.  Concretely, with two orbitals of
energy 0, the identity coefficient matrix, occidx = [0] and the Fock matrix
[[1,0],[0,0]], the TDA builder's projected foo entry is 1 while the RPA
builder's foo entry is 0. -/
theorem tdhf_foo_ignores_fock_counterexample :
    tdhf_foo ![(0 : ℚ), 0] ![0] (some !![(1 : ℚ), 0; 0, 0]) 0 0 ≠
      tda_foo ![0, 0] (1 : Matrix (Fin 2) (Fin 2) ℚ) ![0] (some !![1, 0; 0, 0]) 0 0 := by
  simp [tdhf_foo, tda_foo, Matrix.conjTranspose_one]

/-- C5 (amended): only the TDA operator builder uses a supplied Fock
matrix.  Its foo and fvv blocks equal the projections orbo† · F · orbo and
orbv† · F · orbv of the supplied Fock matrix onto the occupied and virtual
orbitals; the RPA builder ignores the supplied Fock matrix and always
builds foo and fvv as diagonal matrices of the stored orbital energies. -/
theorem fock_matrix_projection_tda_only
    (mo_energy : Fin nmo → K) (mo_coeff : Matrix (Fin nao) (Fin nmo) K)
    (occidx : Fin nocc → Fin nmo) (viridx : Fin nvir → Fin nmo)
    (F : Matrix (Fin nao) (Fin nao) K)
    (Fopt : Option (Matrix (Fin nao) (Fin nao) K)) :
    tda_foo mo_energy mo_coeff occidx (some F)
        = (sliceCols mo_coeff occidx).conjTranspose * F * sliceCols mo_coeff occidx ∧
    tda_fvv mo_energy mo_coeff viridx (some F)
        = (sliceCols mo_coeff viridx).conjTranspose * F * sliceCols mo_coeff viridx ∧
    tdhf_foo mo_energy occidx Fopt = Matrix.diagonal (fun i => mo_energy (occidx i)) ∧
    tdhf_fvv mo_energy viridx Fopt = Matrix.diagonal (fun a => mo_energy (viridx a)) := by
  refine ⟨?_, ?_, rfl, rfl⟩
  · funext i j
    simp [tda_foo, sliceCols, Matrix.mul_apply, Matrix.conjTranspose_apply]
  · funext a b
    simp [tda_fvv, sliceCols, Matrix.mul_apply, Matrix.conjTranspose_apply]

end ClaimC5

section ClaimC8

variable {K : Type} [CommRing K] [StarRing K]
variable {nao nmo nocc nvir : ℕ}

/-- Row-major flattening `m.ravel()` of an (occupied × virtual) block:
entry (i, a) lands at flat position i * nvir + a (numpy C order), which is
`finProdFinEquiv (i, a)`. -/
def ravelM (m : Matrix (Fin nocc) (Fin nvir) K) : Fin (nocc * nvir) → K :=
  fun k => m (finProdFinEquiv.symm k).1 (finProdFinEquiv.symm k).2

/-- Diagonal vector built by gen_tdhf_operation:
`hdiag = fvv.diagonal() - foo.diagonal()[:,None]`, masked at
symmetry-forbidden pairs, then `numpy.hstack((hdiag.ravel(),
-hdiag.ravel()))`.  The foo/fvv blocks come from `tdhf_foo`/`tdhf_fvv`
(stored orbital energies; the fock_ao argument is ignored by this builder).
The trailing `.real` of the source is dropped: orbital energies are real.  -/
def tdhf_hdiag (mo_energy : Fin nmo → K)
    (occidx : Fin nocc → Fin nmo) (viridx : Fin nvir → Fin nmo)
    (fock_ao : Option (Matrix (Fin nao) (Fin nao) K))
    (sym : Option (Fin nocc → Fin nvir → Bool)) :
    Fin (nocc * nvir + nocc * nvir) → K :=
  let foo := tdhf_foo mo_energy occidx fock_ao
  let fvv := tdhf_fvv mo_energy viridx fock_ao
  let hd := applySym sym (fun i a => fvv a a - foo i i)
  Fin.append (ravelM hd) (fun k => - ravelM hd k)

/-- C8: the diagonal vector returned by the RPA operator builder has length
2·nocc·nvir (its index type is `Fin (nocc*nvir + nocc*nvir)`); the entry of
its first half at the flat position of the pair (i, a) is
fvv[a,a] − foo[i,i] = e(viridx a) − e(occidx i), forced to 0 at
symmetry-forbidden pairs; and its second half is the elementwise negation
of its first half. -/
theorem tdhf_hdiag_layout (mo_energy : Fin nmo → K)
    (occidx : Fin nocc → Fin nmo) (viridx : Fin nvir → Fin nmo)
    (fock_ao : Option (Matrix (Fin nao) (Fin nao) K))
    (forbid : Fin nocc → Fin nvir → Bool) :
    (∀ i a, tdhf_hdiag mo_energy occidx viridx fock_ao (some forbid)
        (Fin.castAdd (nocc * nvir) (finProdFinEquiv (i, a)))
      = if forbid i a then 0 else mo_energy (viridx a) - mo_energy (occidx i)) ∧
    (∀ k : Fin (nocc * nvir), tdhf_hdiag mo_energy occidx viridx fock_ao (some forbid)
        (Fin.natAdd (nocc * nvir) k)
      = - tdhf_hdiag mo_energy occidx viridx fock_ao (some forbid)
          (Fin.castAdd (nocc * nvir) k)) := by
  constructor
  · intro i a
    simp [tdhf_hdiag, ravelM, Fin.append_left, applySym, maskZero,
      tdhf_foo, tdhf_fvv, Matrix.diagonal]
  · intro k
    simp only [tdhf_hdiag]
    rw [Fin.append_right, Fin.append_left]

end ClaimC8

section NormXY

variable {no nv : ℕ}

/-- Squared Frobenius norm `lib.norm(x)**2` of a real amplitude block. -/
noncomputable def frobSq (x : Matrix (Fin no) (Fin nv) ℝ) : ℝ :=
  ∑ i, ∑ a, (x i a) ^ 2

/-- The scale factor `numpy.sqrt(1./norm)` of TDHF.kernel.norm_xy.  In IEEE
arithmetic it is a finite real number exactly when norm > 0: for norm < 0
the square root of the negative number 1/norm is NaN, and for norm == 0 the
division yields inf whose square root is inf.  A non-finite value (NaN or
inf) is modelled as `none`. -/
noncomputable def sqrt_recip (norm : ℝ) : Option ℝ :=
  if 0 < norm then some (Real.sqrt (1 / norm)) else none

/-- TDHF.kernel.norm_xy: the root vector z is reshaped into the pair (x, y)
of (nocc × nvir) blocks, the indefinite squared norm
`lib.norm(x)**2 - lib.norm(y)**2` is formed, and both blocks are scaled by
`numpy.sqrt(1./norm)` — unconditionally: there is no branch on the sign of
the norm.  Entries are Option-valued: `none` marks a non-finite (NaN/inf)
amplitude, arising exactly when the scale factor is non-finite (a finite
entry times a non-finite scale is non-finite). -/
noncomputable def norm_xy (x y : Matrix (Fin no) (Fin nv) ℝ) :
    Matrix (Fin no) (Fin nv) (Option ℝ) × Matrix (Fin no) (Fin nv) (Option ℝ) :=
  let norm := frobSq x - frobSq y
  ((fun i a => (sqrt_recip norm).map (fun c => c * x i a)),
   (fun i a => (sqrt_recip norm).map (fun c => c * y i a)))

end NormXY

section ClaimC1

/-- C1 is refuted on the code: TDHF.kernel.norm_xy contains no test of the
indefinite squared norm and raises no error.  At the concrete ill-posed
root x = [[0]], y = [[1]] (indefinite squared norm −1 ≤ 0) it returns a
value — amplitude blocks whose entries are the non-finite NaN
(`none`), the very outcome the claim says is prevented — instead of
signalling any IllPosedNormalization error. -/
theorem norm_xy_illposed_counterexample :
    frobSq (fun _ _ => 0 : Matrix (Fin 1) (Fin 1) ℝ)
        - frobSq (fun _ _ => 1 : Matrix (Fin 1) (Fin 1) ℝ) ≤ 0 ∧
    (norm_xy (fun _ _ => 0 : Matrix (Fin 1) (Fin 1) ℝ) (fun _ _ => 1)).1 0 0 = none ∧
    (norm_xy (fun _ _ => 0 : Matrix (Fin 1) (Fin 1) ℝ) (fun _ _ => 1)).2 0 0 = none := by
  have h : frobSq (fun _ _ => 0 : Matrix (Fin 1) (Fin 1) ℝ)
      - frobSq (fun _ _ => 1 : Matrix (Fin 1) (Fin 1) ℝ) = -1 := by
    simp [frobSq]
  refine ⟨by rw [h]; norm_num, ?_, ?_⟩ <;>
    simp [norm_xy, sqrt_recip, h]

/-- C1 (amended): for every RPA root vector whose indefinite squared norm
‖X‖² − ‖Y‖² is non-positive, norm_xy does not signal an error; it
unconditionally scales both blocks by sqrt(1/norm), and every entry of both
returned amplitude blocks is non-finite (NaN/inf, modelled `none`). -/
theorem norm_xy_illposed_returns_nan {no nv : ℕ}
    (x y : Matrix (Fin no) (Fin nv) ℝ)
    (h : frobSq x - frobSq y ≤ 0) :
    ∀ i a, (norm_xy x y).1 i a = none ∧ (norm_xy x y).2 i a = none := by
  intro i a
  have hs : sqrt_recip (frobSq x - frobSq y) = none := by
    simp [sqrt_recip, not_lt.mpr h]
  constructor <;> simp [norm_xy, hs]

/-- Witness for the amended C1 at the root x = [[1]], y = [[2]] with
indefinite squared norm 1 − 4 = −3 ≤ 0. -/
theorem norm_xy_illposed_returns_nan_witness :
    (frobSq (fun _ _ => 1 : Matrix (Fin 1) (Fin 1) ℝ)
        - frobSq (fun _ _ => 2 : Matrix (Fin 1) (Fin 1) ℝ) ≤ 0) ∧
    ∀ i a, (norm_xy (fun _ _ => 1 : Matrix (Fin 1) (Fin 1) ℝ) (fun _ _ => 2)).1 i a = none ∧
      (norm_xy (fun _ _ => 1 : Matrix (Fin 1) (Fin 1) ℝ) (fun _ _ => 2)).2 i a = none := by
  have h : frobSq (fun _ _ => 1 : Matrix (Fin 1) (Fin 1) ℝ)
      - frobSq (fun _ _ => 2 : Matrix (Fin 1) (Fin 1) ℝ) ≤ 0 := by
    have : frobSq (fun _ _ => 1 : Matrix (Fin 1) (Fin 1) ℝ)
        - frobSq (fun _ _ => 2 : Matrix (Fin 1) (Fin 1) ℝ) = -3 := by
      simp [frobSq]
      norm_num
    rw [this]; norm_num
  exact ⟨h, norm_xy_illposed_returns_nan _ _ h⟩

end ClaimC1

section ClaimC6

/-- C6: for every RPA root vector whose reshaped pair (X, Y) has strictly
positive indefinite squared norm, every entry of the returned pair
(X', Y') is a finite value, and ‖X'‖² − ‖Y'‖² = 1. -/
theorem norm_xy_normalizes_to_one {no nv : ℕ}
    (x y : Matrix (Fin no) (Fin nv) ℝ)
    (h : 0 < frobSq x - frobSq y) :
    (∀ i a, ((norm_xy x y).1 i a).isSome ∧ ((norm_xy x y).2 i a).isSome) ∧
    frobSq (fun i a => ((norm_xy x y).1 i a).getD 0)
      - frobSq (fun i a => ((norm_xy x y).2 i a).getD 0) = 1 := by
  set n := frobSq x - frobSq y with hn
  have hs : sqrt_recip n = some (Real.sqrt (1 / n)) := by
    simp [sqrt_recip, h]
  constructor
  · intro i a
    constructor <;> simp [norm_xy, ← hn, hs]
  · have hx1 : (fun i a => ((norm_xy x y).1 i a).getD 0)
        = fun i a => Real.sqrt (1 / n) * x i a := by
      funext i a
      simp [norm_xy, ← hn, hs]
    have hy1 : (fun i a => ((norm_xy x y).2 i a).getD 0)
        = fun i a => Real.sqrt (1 / n) * y i a := by
      funext i a
      simp [norm_xy, ← hn, hs]
    rw [hx1, hy1]
    have hsq : Real.sqrt (1 / n) ^ 2 = 1 / n :=
      Real.sq_sqrt (by positivity)
    have hfx : frobSq (fun i a => Real.sqrt (1 / n) * x i a)
        = (1 / n) * frobSq x := by
      simp only [frobSq, mul_pow, hsq, Finset.mul_sum]
    have hfy : frobSq (fun i a => Real.sqrt (1 / n) * y i a)
        = (1 / n) * frobSq y := by
      simp only [frobSq, mul_pow, hsq, Finset.mul_sum]
    rw [hfx, hfy, ← mul_sub, ← hn, one_div, inv_mul_cancel₀ (ne_of_gt h)]

/-- Witness for C6 at the root x = [[2]], y = [[1]] with indefinite squared
norm 4 − 1 = 3 > 0. -/
theorem norm_xy_normalizes_to_one_witness :
    (0 < frobSq (fun _ _ => 2 : Matrix (Fin 1) (Fin 1) ℝ)
        - frobSq (fun _ _ => 1 : Matrix (Fin 1) (Fin 1) ℝ)) ∧
    frobSq (fun i a => ((norm_xy (fun _ _ => 2 : Matrix (Fin 1) (Fin 1) ℝ)
        (fun _ _ => 1)).1 i a).getD 0)
      - frobSq (fun i a => ((norm_xy (fun _ _ => 2 : Matrix (Fin 1) (Fin 1) ℝ)
        (fun _ _ => 1)).2 i a).getD 0) = 1 := by
  have h : (0 : ℝ) < frobSq (fun _ _ => 2 : Matrix (Fin 1) (Fin 1) ℝ)
      - frobSq (fun _ _ => 1 : Matrix (Fin 1) (Fin 1) ℝ) := by
    have : frobSq (fun _ _ => 2 : Matrix (Fin 1) (Fin 1) ℝ)
        - frobSq (fun _ _ => 1 : Matrix (Fin 1) (Fin 1) ℝ) = 3 := by
      simp [frobSq]
      norm_num
    rw [this]; norm_num
  exact ⟨h, (norm_xy_normalizes_to_one _ _ h).2⟩

end ClaimC6

section InitGuess

/-- Index extraction `numpy.where(mo_occ == v)[0]`. -/
def where_eq (mo_occ : List ℚ) (v : ℚ) : List ℕ :=
  (List.range mo_occ.length).filter (fun i => decide (mo_occ.getD i 0 = v))

/-- Occupied orbital indices as selected by TDA.init_guess:
`occidx = numpy.where(mo_occ==2)[0]` — the selector tests occupation 2
(source line 338), unlike the operator builders which test occupation 1. -/
def ig_occidx (mo_occ : List ℚ) : List ℕ := where_eq mo_occ 2

/-- Virtual orbital indices `viridx = numpy.where(mo_occ==0)[0]`. -/
def ig_viridx (mo_occ : List ℚ) : List ℕ := where_eq mo_occ 0

/-- Gap matrix `e_ia = mo_energy[viridx] - mo_energy[occidx,None]`, one row
per occupied index. -/
def gap_rows (mo_energy mo_occ : List ℚ) : List (List ℚ) :=
  (ig_occidx mo_occ).map fun i => (ig_viridx mo_occ).map fun a =>
    mo_energy.getD a 0 - mo_energy.getD i 0

/-- Row-major flattening `e_ia.ravel()` of the gap matrix. -/
def gaps (mo_energy mo_occ : List ℚ) : List ℚ := (gap_rows mo_energy mo_occ).flatten

/-- `e_ia[numpy.argsort(e_ia)[k]]`: the k-th entry of the gap list sorted
ascending (argsort is only used to read this order statistic back; for tied
values any stable order gives the same value). -/
def kth_smallest (l : List ℚ) (k : ℕ) : ℚ := (l.insertionSort (· ≤ ·)).getD k 0

/-- Koopmans unit guess vector: `x0[i, j] = 1` at one flat pair position j,
zero elsewhere. -/
def unit_vec (nov j : ℕ) : List ℚ :=
  (List.range nov).map fun t => if t = j then 1 else 0

/-- TDA.init_guess (source lines 332-362).  With `wfnsym = none` the
symmetry block is skipped; otherwise gaps of forbidden pairs are
overwritten with the sentinel 1e99 before selection (the pre-sentinel
maximum `e_ia_max` is taken first, as in the source).  `e_ia.max()` on an
empty gap array raises ValueError (numpy reduction over a zero-size
array), modelled by `none`.  The threshold is
`min(e_ia_max, e_ia[argsort(e_ia)[nstates-1]]) + 1e-6` with nstates first
clipped to the pair count, and one unit guess is emitted per flat pair
whose gap is below it. -/
def init_guess (mo_energy mo_occ : List ℚ) (nstates : ℕ)
    (wfnsym : Option ℕ) (orbsym : List ℕ) : Option (List (List ℚ)) :=
  match (gaps mo_energy mo_occ).max? with
  | none => none
  | some e_ia_max =>
    let e_ia :=
      match wfnsym with
      | none => gaps mo_energy mo_occ
      | some w =>
          ((ig_occidx mo_occ).map fun i => (ig_viridx mo_occ).map fun a =>
            if ((orbsym.getD i 0) % 10) ^^^ ((orbsym.getD a 0) % 10) ≠ w % 10
            then (10 : ℚ) ^ 99
            else mo_energy.getD a 0 - mo_energy.getD i 0).flatten
    let nov := e_ia.length
    let ns := min nstates nov
    let e_threshold := min e_ia_max (kth_smallest e_ia (ns - 1)) + 1 / 1000000
    let idx := (List.range nov).filter fun k => decide (e_ia.getD k 0 ≤ e_threshold)
    some (idx.map fun j => unit_vec nov j)

end InitGuess

section ClaimC2

/-- C2 is a bug in the code: the occupied selector of TDA.init_guess tests
`mo_occ == 2`, so for every generalized-spin mean-field state with
occupation numbers 0 or 1 per orbital (the module's own convention:
gen_tda_operation, gen_tdhf_operation and get_ab all select occupied
orbitals by `mo_occ == 1`) the occupied index list is empty, the gap array
is empty, and `e_ia.max()` raises ValueError (modelled `none`): no gap
e[a] − e[i] over occupation-1/occupation-0 pairs is ever formed, and no
guess is selected. -/
theorem init_guess_rejects_ghf_occupations
    (mo_energy mo_occ : List ℚ) (nstates : ℕ) (w : Option ℕ) (os : List ℕ)
    (h : ∀ q ∈ mo_occ, q = 0 ∨ q = 1) :
    init_guess mo_energy mo_occ nstates w os = none := by
  have hocc : ig_occidx mo_occ = [] := by
    rw [ig_occidx, where_eq, List.filter_eq_nil_iff]
    intro i hi
    have hlen : i < mo_occ.length := List.mem_range.mp hi
    have hmem : mo_occ.getD i 0 ∈ mo_occ := by
      rw [List.getD_eq_getElem _ _ hlen]
      exact List.getElem_mem hlen
    simp only [decide_eq_true_eq]
    intro heq
    rcases h _ hmem with h0 | h0 <;> rw [h0] at heq <;> norm_num at heq
  have hg : gaps mo_energy mo_occ = [] := by
    simp [gaps, gap_rows, hocc]
  simp [init_guess, hg]

/-- Witness for C2 at the failing input of the claim: the two-spin-orbital
state with energies [-1, 1/2] and GHF occupations [1, 0] (one occupied, one
virtual). -/
theorem init_guess_rejects_ghf_occupations_witness :
    (∀ q ∈ [(1 : ℚ), 0], q = 0 ∨ q = 1) ∧
    init_guess [-1, 1/2] [1, 0] 1 none [] = none :=
  ⟨by decide,
   init_guess_rejects_ghf_occupations [-1, 1/2] [1, 0] 1 none [] (by decide)⟩

end ClaimC2

section ClaimC9

/-- Helper: enumerating a list by flat positions recovers the list. -/
theorem map_getD_range (l : List ℚ) (d : ℚ) :
    (List.range l.length).map (fun k => l.getD k d) = l := by
  induction l with
  | nil => rfl
  | cons a t ih =>
      simp only [List.length_cons, List.range_succ_eq_map, List.map_cons, List.map_map,
        List.getD_cons_zero]
      have h2 : ((fun k => (a :: t).getD k d) ∘ Nat.succ) = fun k => t.getD k d := by
        funext k
        simp [List.getD_cons_succ]
      rw [h2, ih]

/-- Helper: selecting flat positions by a predicate on the stored value
counts exactly the values satisfying the predicate. -/
theorem filter_range_getD_length (l : List ℚ) (p : ℚ → Bool) :
    ((List.range l.length).filter (fun k => p (l.getD k 0))).length = l.countP p := by
  have h1 : l.countP p = ((List.range l.length).map (fun k => l.getD k 0)).countP p := by
    rw [map_getD_range]
  rw [h1, List.countP_map, List.countP_eq_length_filter]
  rfl

/-- Helper: specialization of the previous count identity to threshold
predicates, in the shape produced by init_guess. -/
theorem filter_range_getD_le_length (l : List ℚ) (c : ℚ) :
    ((List.range l.length).filter (fun k => decide (l.getD k 0 ≤ c))).length
      = l.countP (fun q => decide (q ≤ c)) :=
  filter_range_getD_length l (fun q => decide (q ≤ c))

/-- Helper: every member of a list is bounded by its `max?`. -/
theorem le_of_mem_max? (l : List ℚ) (m q : ℚ) (hm : l.max? = some m) (hq : q ∈ l) :
    q ≤ m := by
  haveI : Std.Antisymm (fun x1 x2 : ℚ => x1 ≤ x2) := ⟨fun h h' => le_antisymm h h'⟩
  have := (List.max?_eq_some_iff (fun a => le_refl a) (fun a b => max_choice a b)
    (fun a b c => max_le_iff)).mp hm
  exact this.2 q hq

/-- Helper: at least ns values of a list lie within tol of its ns-th
smallest value. -/
theorem countP_le_kth_smallest_ge (l : List ℚ) (ns : ℕ) (tol : ℚ)
    (h1 : 1 ≤ ns) (h2 : ns ≤ l.length) (htol : 0 ≤ tol) :
    ns ≤ l.countP (fun q => decide (q ≤ kth_smallest l (ns - 1) + tol)) := by
  set p : ℚ → Bool := fun q => decide (q ≤ kth_smallest l (ns - 1) + tol) with hp
  set s := l.insertionSort (· ≤ ·) with hs
  have hperm : s.Perm l := List.perm_insertionSort _ l
  have hlen : s.length = l.length := hperm.length_eq
  have hsort : List.Sorted (· ≤ ·) s := List.sorted_insertionSort _ l
  have hcount : l.countP p = s.countP p := (hperm.countP_eq p).symm
  have hns1 : ns - 1 < s.length := by omega
  have hkth : kth_smallest l (ns - 1) = s.getD (ns - 1) 0 := rfl
  have htake : ∀ x ∈ s.take ns, p x = true := by
    intro x hx
    rcases List.mem_iff_getElem.mp hx with ⟨j, hj, hjx⟩
    have hjns : j < ns := by
      have := hj
      rw [List.length_take] at this
      omega
    have hjlen : j < s.length := by omega
    have hxj : x = s[j] := by
      rw [← hjx, List.getElem_take]
    have hrel : s[j] ≤ s[ns - 1] := by
      have hle : (⟨j, hjlen⟩ : Fin s.length) ≤ ⟨ns - 1, hns1⟩ :=
        Fin.mk_le_mk.mpr (Nat.le_sub_one_of_lt hjns)
      have := @List.Sorted.rel_get_of_le ℚ (fun x1 x2 => x1 ≤ x2) _ s hsort
        ⟨j, hjlen⟩ ⟨ns - 1, hns1⟩ hle
      simpa using this
    have : x ≤ kth_smallest l (ns - 1) + tol := by
      rw [hxj, hkth, List.getD_eq_getElem _ _ hns1]
      have := hrel
      linarith
    exact decide_eq_true this
  have h3 : (s.take ns).countP p = ns := by
    rw [List.countP_eq_length.mpr htake, List.length_take]
    omega
  calc ns = (s.take ns).countP p := h3.symm
    _ ≤ s.countP p := by
        conv_rhs => rw [← List.take_append_drop ns s]
        rw [List.countP_append]
        omega
    _ = l.countP p := (hcount).symm

/-- Helper: the selection threshold of init_guess simplifies to the ns-th
smallest gap: that order statistic never exceeds the pre-sentinel gap
maximum. -/
theorem init_guess_threshold_eq (l : List ℚ) (m : ℚ) (ns : ℕ)
    (hm : l.max? = some m) (h1 : 1 ≤ ns) (h2 : ns ≤ l.length) :
    min m (kth_smallest l (ns - 1)) = kth_smallest l (ns - 1) := by
  apply min_eq_right
  set s := l.insertionSort (· ≤ ·) with hs
  have hperm : s.Perm l := List.perm_insertionSort _ l
  have hlen : s.length = l.length := hperm.length_eq
  have hns1 : ns - 1 < s.length := by omega
  have hmem : kth_smallest l (ns - 1) ∈ l := by
    have hk : kth_smallest l (ns - 1) = s.getD (ns - 1) 0 := rfl
    rw [hk, List.getD_eq_getElem _ _ hns1]
    exact hperm.mem_iff.mp (List.getElem_mem hns1)
  exact le_of_mem_max? l m _ hm hmem

/-- C9: whenever the gap spectrum is nonempty (which, given the occupation
selector of this function, requires occupied orbitals marked with
occupation 2 — see C2) and nstates ≥ 1, init_guess succeeds and returns
exactly one unit-basis guess per flat pair whose gap lies within the
additive tolerance 1e-6 of the nstates-th smallest gap: the guess count
equals the number of such pairs, is at least min(nstates, #pairs) — so ties
at the selection boundary can push it beyond nstates — and every such pair
contributes its unit vector. -/
theorem init_guess_includes_degenerate_pairs
    (mo_energy mo_occ : List ℚ) (nstates : ℕ)
    (h1 : 1 ≤ nstates) (hne : gaps mo_energy mo_occ ≠ []) :
    ∃ x0, init_guess mo_energy mo_occ nstates none [] = some x0 ∧
      x0.length = (gaps mo_energy mo_occ).countP (fun q =>
        decide (q ≤ kth_smallest (gaps mo_energy mo_occ)
          (min nstates (gaps mo_energy mo_occ).length - 1) + 1 / 1000000)) ∧
      min nstates (gaps mo_energy mo_occ).length ≤ x0.length ∧
      ∀ k, k < (gaps mo_energy mo_occ).length →
        (gaps mo_energy mo_occ).getD k 0 ≤ kth_smallest (gaps mo_energy mo_occ)
          (min nstates (gaps mo_energy mo_occ).length - 1) + 1 / 1000000 →
        unit_vec (gaps mo_energy mo_occ).length k ∈ x0 := by
  set g := gaps mo_energy mo_occ with hg
  obtain ⟨m, hm⟩ : ∃ m, g.max? = some m := by
    cases hmx : g.max? with
    | none => exact absurd (List.max?_eq_none_iff.mp hmx) hne
    | some m => exact ⟨m, rfl⟩
  have hgpos : 1 ≤ g.length := by
    cases hgc : g with
    | nil => exact absurd hgc hne
    | cons a t => simp
  set ns := min nstates g.length with hns
  have hns1 : 1 ≤ ns := by
    rw [hns]
    omega
  have hnsle : ns ≤ g.length := Nat.min_le_right _ _
  have hthr : min m (kth_smallest g (ns - 1)) = kth_smallest g (ns - 1) :=
    init_guess_threshold_eq g m ns hm hns1 hnsle
  refine ⟨((List.range g.length).filter fun k =>
      decide (g.getD k 0 ≤ kth_smallest g (ns - 1) + 1 / 1000000)).map
      (fun j => unit_vec g.length j), ?_, ?_, ?_, ?_⟩
  · simp only [init_guess, ← hg, hm, ← hns, hthr]
  · rw [List.length_map]
    exact filter_range_getD_le_length g _
  · rw [List.length_map, filter_range_getD_le_length]
    exact countP_le_kth_smallest_ge g ns (1 / 1000000) hns1 hnsle (by norm_num)
  · intro k hk hle
    exact List.mem_map_of_mem _
      (List.mem_filter.mpr ⟨List.mem_range.mpr hk, decide_eq_true hle⟩)

/-- Witness for C9: the state with energies [0, 1, 1] and occupations
[2, 0, 0] has the two exactly equal lowest gaps [1, 1]; with nstates = 1
the generator returns two unit guess vectors, not one. -/
theorem init_guess_includes_degenerate_pairs_witness :
    (1 ≤ 1 ∧ gaps [0, 1, 1] [2, 0, 0] ≠ []) ∧
    ∃ x0, init_guess [0, 1, 1] [2, 0, 0] 1 none [] = some x0 ∧ 2 ≤ x0.length := by
  have hgg : gaps [0, 1, 1] [2, 0, 0] = [1, 1] := by
    have h1 : ig_occidx [2, 0, 0] = [0] := by decide
    have h2 : ig_viridx [2, 0, 0] = [1, 2] := by decide
    simp [gaps, gap_rows, h1, h2]
  have hne : gaps [0, 1, 1] [2, 0, 0] ≠ [] := by
    rw [hgg]
    simp
  refine ⟨⟨le_refl 1, hne⟩, ?_⟩
  obtain ⟨x0, hx, hlen, -, -⟩ :=
    init_guess_includes_degenerate_pairs [0, 1, 1] [2, 0, 0] 1 (le_refl 1) hne
  refine ⟨x0, hx, ?_⟩
  rw [hlen, hgg]
  have hk : kth_smallest [(1 : ℚ), 1] (min 1 ([(1 : ℚ), 1]).length - 1) = 1 := by decide
  rw [hk]
  norm_num [List.countP_cons, List.countP_nil]

end ClaimC9

section ClaimC4

variable {nr nocc nvir : ℕ}

/-- Grid-level inputs to the GGA branch of get_ab for one quadrature batch,
as produced by the external collaborators: quadrature weights, ground-state
spin densities with their three gradient components (rho0a/rho0b, first
index 0 = value, 1..3 = gradient), the first derivatives of the functional
with respect to the density gradients (vxc[1]: uu, ud, dd), the second
derivatives (fxc[0]: u_u, u_d, d_d; fxc[1]: u_uu .. d_dd; fxc[2]:
uu_uu .. dd_dd), and the occupied/virtual alpha/beta orbital values on the
grid with their gradients (get_mo_value output).  The dtype assert of
get_ab makes all of these real. -/
structure GGAData (nr nocc nvir : ℕ) where
  weight : Fin nr → ℚ
  rho0a : Fin 4 → Fin nr → ℚ
  rho0b : Fin 4 → Fin nr → ℚ
  uu : Fin nr → ℚ
  ud : Fin nr → ℚ
  dd : Fin nr → ℚ
  u_u : Fin nr → ℚ
  u_d : Fin nr → ℚ
  d_d : Fin nr → ℚ
  u_uu : Fin nr → ℚ
  u_ud : Fin nr → ℚ
  u_dd : Fin nr → ℚ
  d_uu : Fin nr → ℚ
  d_ud : Fin nr → ℚ
  d_dd : Fin nr → ℚ
  uu_uu : Fin nr → ℚ
  uu_ud : Fin nr → ℚ
  uu_dd : Fin nr → ℚ
  ud_ud : Fin nr → ℚ
  ud_dd : Fin nr → ℚ
  dd_dd : Fin nr → ℚ
  mo_oa : Fin 4 → Fin nr → Fin nocc → ℚ
  mo_va : Fin 4 → Fin nr → Fin nvir → ℚ
  mo_ob : Fin 4 → Fin nr → Fin nocc → ℚ
  mo_vb : Fin 4 → Fin nr → Fin nvir → ℚ

/-- Gradient-augmented alpha occupied-virtual pair density:
`rho_ov_a = einsum('xri,ra->xria', mo_oa.conj(), mo_va[0])` followed by
`rho_ov_a[1:4] += einsum('ri,xra->xria', mo_oa[0].conj(), mo_va[1:4])`. -/
def rho_ov_a (d : GGAData nr nocc nvir) :
    Fin 4 → Fin nr → Fin nocc → Fin nvir → ℚ :=
  fun x r i a => star (d.mo_oa x r i) * d.mo_va 0 r a
    + (if x = 0 then 0 else star (d.mo_oa 0 r i) * d.mo_va x r a)

/-- Beta occupied-virtual pair density, same construction from mo_ob and
mo_vb. -/
def rho_ov_b (d : GGAData nr nocc nvir) :
    Fin 4 → Fin nr → Fin nocc → Fin nvir → ℚ :=
  fun x r i a => star (d.mo_ob x r i) * d.mo_vb 0 r a
    + (if x = 0 then 0 else star (d.mo_ob 0 r i) * d.mo_vb x r a)

/-- `rho_vo_a = rho_ov_a.conj()` (source line 221). -/
def rho_vo_a (d : GGAData nr nocc nvir) :
    Fin 4 → Fin nr → Fin nocc → Fin nvir → ℚ :=
  fun x r i a => star (rho_ov_a d x r i a)

/-- `rho_vo_b = rho_vo_a.conj()` (source line 222): the beta vo density is
built from the ALPHA ov density.  The LDA branch of the same function
(source line 194) uses `rho_vo_b = rho_ov_b.conj()` instead. -/
def rho_vo_b (d : GGAData nr nocc nvir) :
    Fin 4 → Fin nr → Fin nocc → Fin nvir → ℚ :=
  fun x r i a => star (rho_vo_a d x r i a)

/-- `a0a1 = einsum('xr,xria->ria', rho0a[1:4], rho_ov_a[1:4])`. -/
def a0a1 (d : GGAData nr nocc nvir) : Fin nr → Fin nocc → Fin nvir → ℚ :=
  fun r i a => ∑ x : Fin 3, d.rho0a x.succ r * rho_ov_a d x.succ r i a

/-- `a0b1 = einsum('xr,xria->ria', rho0a[1:4], rho_ov_b[1:4])`. -/
def a0b1 (d : GGAData nr nocc nvir) : Fin nr → Fin nocc → Fin nvir → ℚ :=
  fun r i a => ∑ x : Fin 3, d.rho0a x.succ r * rho_ov_b d x.succ r i a

/-- `b0a1 = einsum('xr,xria->ria', rho0b[1:4], rho_ov_a[1:4])`. -/
def b0a1 (d : GGAData nr nocc nvir) : Fin nr → Fin nocc → Fin nvir → ℚ :=
  fun r i a => ∑ x : Fin 3, d.rho0b x.succ r * rho_ov_a d x.succ r i a

/-- `b0b1 = einsum('xr,xria->ria', rho0b[1:4], rho_ov_b[1:4])`. -/
def b0b1 (d : GGAData nr nocc nvir) : Fin nr → Fin nocc → Fin nvir → ℚ :=
  fun r i a => ∑ x : Fin 3, d.rho0b x.succ r * rho_ov_b d x.succ r i a

/-- Weighted response vector of the αα block ("# aaaa", lines 230-243):
value component `u_u·ρa + 2·u_uu·a0a1 + u_ud·b0a1`, gradient components
`f_ov_a·rho0a[x] + f_ov_b·rho0b[x] + 2·uu·ρa[x]` with
`f_ov_a = 4·uu_uu·a0a1 + 2·uu_ud·b0a1 + 2·u_uu·ρa` and
`f_ov_b = 2·uu_ud·a0a1 + ud_ud·b0a1 + u_ud·ρa`, all times the quadrature
weight. -/
def w_ov_aaaa (d : GGAData nr nocc nvir) :
    Fin 4 → Fin nr → Fin nocc → Fin nvir → ℚ :=
  fun x r i a => d.weight r *
    (if x = 0 then
      d.u_u r * rho_ov_a d 0 r i a + 2 * d.u_uu r * a0a1 d r i a
        + d.u_ud r * b0a1 d r i a
    else
      (4 * d.uu_uu r * a0a1 d r i a + 2 * d.uu_ud r * b0a1 d r i a
          + 2 * d.u_uu r * rho_ov_a d 0 r i a) * d.rho0a x r
        + (2 * d.uu_ud r * a0a1 d r i a + d.ud_ud r * b0a1 d r i a
          + d.u_ud r * rho_ov_a d 0 r i a) * d.rho0b x r
        + 2 * d.uu r * rho_ov_a d x r i a)

/-- Weighted response vector of the ββ block ("# bbbb", lines 248-261). -/
def w_ov_bbbb (d : GGAData nr nocc nvir) :
    Fin 4 → Fin nr → Fin nocc → Fin nvir → ℚ :=
  fun x r i a => d.weight r *
    (if x = 0 then
      d.d_d r * rho_ov_b d 0 r i a + 2 * d.d_dd r * b0b1 d r i a
        + d.d_ud r * a0b1 d r i a
    else
      (2 * d.ud_dd r * b0b1 d r i a + d.ud_ud r * a0b1 d r i a
          + d.d_ud r * rho_ov_b d 0 r i a) * d.rho0a x r
        + (4 * d.dd_dd r * b0b1 d r i a + 2 * d.ud_dd r * a0b1 d r i a
          + 2 * d.d_dd r * rho_ov_b d 0 r i a) * d.rho0b x r
        + 2 * d.dd r * rho_ov_b d x r i a)

/-- Weighted response vector of the cross-spin block ("# aabb and bbaa",
lines 266-278; note the unscaled `ud` in the last gradient term). -/
def w_ov_cross (d : GGAData nr nocc nvir) :
    Fin 4 → Fin nr → Fin nocc → Fin nvir → ℚ :=
  fun x r i a => d.weight r *
    (if x = 0 then
      d.u_d r * rho_ov_b d 0 r i a + 2 * d.u_dd r * b0b1 d r i a
        + d.u_ud r * a0b1 d r i a
    else
      (4 * d.uu_dd r * b0b1 d r i a + 2 * d.uu_ud r * a0b1 d r i a
          + 2 * d.d_uu r * rho_ov_b d 0 r i a) * d.rho0a x r
        + (2 * d.ud_dd r * b0b1 d r i a + d.ud_ud r * a0b1 d r i a
          + d.d_ud r * rho_ov_b d 0 r i a) * d.rho0b x r
        + d.ud r * rho_ov_b d x r i a)

/-- Exchange-correlation contribution to A accumulated by the GGA branch:
`a += einsum('xria,xrjb->iajb', w_ov_aaaa, rho_vo_a)` plus the ββ block
contracted against rho_vo_b, plus the cross block a_iajb and its
conjugated (i,a)↔(j,b) transpose. -/
def a_gga_xc (d : GGAData nr nocc nvir)
    (i : Fin nocc) (a : Fin nvir) (j : Fin nocc) (b : Fin nvir) : ℚ :=
  (∑ x, ∑ r, w_ov_aaaa d x r i a * rho_vo_a d x r j b)
  + (∑ x, ∑ r, w_ov_bbbb d x r i a * rho_vo_b d x r j b)
  + (∑ x, ∑ r, w_ov_cross d x r i a * rho_vo_a d x r j b)
  + star (∑ x, ∑ r, w_ov_cross d x r j b * rho_vo_a d x r i a)

/-- Bare two-electron contribution of add_hf_ to A:
`a += einsum('iabj->iajb', eri_mo[:nocc,nocc:,nocc:,:nocc])` and
`a -= einsum('ijba->iajb', eri_mo_aa[:nocc,:nocc,nocc:,nocc:]) * hyb`,
with the spin-summed transformed integral tensors supplied by the ao2mo
collaborator (first index occupied, others full). -/
def add_hf_a (hyb : ℚ)
    (eri_mo eri_mo_aa :
      Fin nocc → Fin (nocc + nvir) → Fin (nocc + nvir) → Fin (nocc + nvir) → ℚ)
    (i : Fin nocc) (a : Fin nvir) (j : Fin nocc) (b : Fin nvir) : ℚ :=
  eri_mo i (Fin.natAdd nocc a) (Fin.natAdd nocc b) (Fin.castAdd nvir j)
    - hyb * eri_mo_aa i (Fin.castAdd nvir j) (Fin.natAdd nocc b) (Fin.natAdd nocc a)

/-- Entry (i,a,j,b) of the A tensor assembled by get_ab for a collinear GGA
functional: the orbital-energy-difference diagonal
`numpy.diag(e_ia.ravel())`, plus the hybrid-scaled bare two-electron term,
plus the quadrature exchange-correlation contribution, summed over one
grid batch. -/
def get_ab_gga_a (e_occ : Fin nocc → ℚ) (e_vir : Fin nvir → ℚ) (hyb : ℚ)
    (eri_mo eri_mo_aa :
      Fin nocc → Fin (nocc + nvir) → Fin (nocc + nvir) → Fin (nocc + nvir) → ℚ)
    (d : GGAData nr nocc nvir)
    (i : Fin nocc) (a : Fin nvir) (j : Fin nocc) (b : Fin nvir) : ℚ :=
  (if i = j ∧ a = b then e_vir a - e_occ i else 0)
  + add_hf_a hyb eri_mo eri_mo_aa i a j b
  + a_gga_xc d i a j b

/-- The concrete failing GGA quadrature batch: one grid point of weight 1,
vanishing ground-state density gradients, all functional-derivative values
zero except the ββ second derivative d_d = 1, alpha ov pair densities
(1, 2) over the two virtuals and beta ov pair densities (1, 3). -/
def ggaBug : GGAData 1 1 2 where
  weight := fun _ => 1
  rho0a := fun _ _ => 0
  rho0b := fun _ _ => 0
  uu := fun _ => 0
  ud := fun _ => 0
  dd := fun _ => 0
  u_u := fun _ => 0
  u_d := fun _ => 0
  d_d := fun _ => 1
  u_uu := fun _ => 0
  u_ud := fun _ => 0
  u_dd := fun _ => 0
  d_uu := fun _ => 0
  d_ud := fun _ => 0
  d_dd := fun _ => 0
  uu_uu := fun _ => 0
  uu_ud := fun _ => 0
  uu_dd := fun _ => 0
  ud_ud := fun _ => 0
  ud_dd := fun _ => 0
  dd_dd := fun _ => 0
  mo_oa := fun x _ _ => if x = 0 then 1 else 0
  mo_va := fun x _ a => if x = 0 then (if a = 0 then 1 else 2) else 0
  mo_ob := fun x _ _ => if x = 0 then 1 else 0
  mo_vb := fun x _ a => if x = 0 then (if a = 0 then 1 else 3) else 0

/-- C4 is a bug in the code: because the GGA branch sets
`rho_vo_b = rho_vo_a.conj()` (= rho_ov_a) instead of `rho_ov_b.conj()` as
the LDA branch does, the ββ contribution to A contracts beta-spin weights
against alpha-spin ov densities, and the assembled A fails the Hermiticity
A[i,a,j,b] = conj(A[j,b,i,a]) claimed for all functional families: at the
concrete batch `ggaBug` (1 occupied, 2 virtual orbitals, zero orbital
energies and zero two-electron integrals), A[0,0,0,1] = 2 while
conj(A[0,1,0,0]) = 3. -/
theorem get_ab_gga_a_not_hermitian :
    get_ab_gga_a (fun _ => 0) (fun _ => 0) 0
        (fun _ _ _ _ => 0) (fun _ _ _ _ => 0) ggaBug 0 0 0 1
      ≠ star (get_ab_gga_a (fun _ => 0) (fun _ => 0) 0
        (fun _ _ _ _ => 0) (fun _ _ _ _ => 0) ggaBug 0 1 0 0) := by
  have hL : get_ab_gga_a (fun _ => 0) (fun _ => 0) 0
      (fun _ _ _ _ => 0) (fun _ _ _ _ => 0) ggaBug 0 0 0 1 = 2 := by
    simp [get_ab_gga_a, add_hf_a, a_gga_xc, w_ov_aaaa, w_ov_bbbb, w_ov_cross,
      rho_vo_a, rho_vo_b, rho_ov_a, rho_ov_b, a0a1, a0b1, b0a1, b0b1, ggaBug,
      Fin.sum_univ_four, Fin.sum_univ_one, Fin.ext_iff]
    decide
  have hR : get_ab_gga_a (fun _ => 0) (fun _ => 0) 0
      (fun _ _ _ _ => 0) (fun _ _ _ _ => 0) ggaBug 0 1 0 0 = 3 := by
    simp [get_ab_gga_a, add_hf_a, a_gga_xc, w_ov_aaaa, w_ov_bbbb, w_ov_cross,
      rho_vo_a, rho_vo_b, rho_ov_a, rho_ov_b, a0a1, a0b1, b0a1, b0b1, ggaBug,
      Fin.sum_univ_four, Fin.sum_univ_one, Fin.ext_iff]
    decide
  rw [hL, hR]
  norm_num

end ClaimC4

section ClaimC10

variable {K : Type} [CommRing K] [StarRing K]
variable {nao nocc nvir : ℕ}

/-- Tiny store of numpy array buffers: a reference is a position in the
list.  `numpy.asarray(zs).reshape(...)` on an ndarray argument returns a
view of the caller's buffer (no allocation), `numpy.copy` allocates a fresh
buffer at the end of the store, and fancy-index assignment writes a buffer
in place. -/
abbrev Store (α : Type) : Type := List α

/-- Dereference a buffer (out-of-range reads return the zero buffer; the
theorems only use in-range references). -/
def Store.read {α : Type} [Zero α] (h : Store α) (r : ℕ) : α := h.getD r 0

/-- `numpy.copy`: allocate a fresh buffer holding the given value, returning
the new store and the fresh reference. -/
def Store.alloc {α : Type} (h : Store α) (v : α) : Store α × ℕ :=
  (h ++ [v], h.length)

/-- In-place assignment to the buffer at an existing reference. -/
def Store.write {α : Type} (h : Store α) (r : ℕ) (v : α) : Store α :=
  h.set r v

/-- Store-level model of the trial-block handling of gen_tda_operation's
vind (lines 90-94): the incoming batch entry is a view of the caller's
buffer at reference r; without a symmetry filter it is read directly and
never written; with a filter, `zs = numpy.copy(zs)` allocates a private
copy and `zs[:,sym_forbid] = 0` writes the masked block into that copy
only.  Returns the final store and the operator image. -/
def tda_vind_store (foo : Matrix (Fin nocc) (Fin nocc) K)
    (fvv : Matrix (Fin nvir) (Fin nvir) K)
    (orbo : Matrix (Fin nao) (Fin nocc) K)
    (orbv : Matrix (Fin nao) (Fin nvir) K)
    (vresp : Matrix (Fin nao) (Fin nao) K → Matrix (Fin nao) (Fin nao) K)
    (sym : Option (Fin nocc → Fin nvir → Bool))
    (h : Store (Matrix (Fin nocc) (Fin nvir) K)) (r : ℕ) :
    Store (Matrix (Fin nocc) (Fin nvir) K) × Matrix (Fin nocc) (Fin nvir) K :=
  match sym with
  | none => (h, tda_vind foo fvv orbo orbv vresp none (h.read r))
  | some forbid =>
      let hr := h.alloc (h.read r)
      let h1 := hr.1
      let r1 := hr.2
      let h2 := h1.write r1 (maskZero forbid (h1.read r1))
      (h2, tda_vind foo fvv orbo orbv vresp (some forbid) (h.read r))

/-- Store-level model of the trial-pair handling of gen_tdhf_operation's
vind (lines 454-459): same copy-then-mask discipline on the (X, Y) pair
buffer. -/
def tdhf_vind_store (foo : Matrix (Fin nocc) (Fin nocc) K)
    (fvv : Matrix (Fin nvir) (Fin nvir) K)
    (orbo : Matrix (Fin nao) (Fin nocc) K)
    (orbv : Matrix (Fin nao) (Fin nvir) K)
    (vresp : Matrix (Fin nao) (Fin nao) K → Matrix (Fin nao) (Fin nao) K)
    (sym : Option (Fin nocc → Fin nvir → Bool))
    (h : Store (Matrix (Fin nocc) (Fin nvir) K × Matrix (Fin nocc) (Fin nvir) K))
    (r : ℕ) :
    Store (Matrix (Fin nocc) (Fin nvir) K × Matrix (Fin nocc) (Fin nvir) K)
      × (Matrix (Fin nocc) (Fin nvir) K × Matrix (Fin nocc) (Fin nvir) K) :=
  match sym with
  | none => (h, tdhf_vind foo fvv orbo orbv vresp none (h.read r).1 (h.read r).2)
  | some forbid =>
      let hr := h.alloc (h.read r)
      let h1 := hr.1
      let r1 := hr.2
      let h2 := h1.write r1
        (maskZero forbid (h1.read r1).1, maskZero forbid (h1.read r1).2)
      (h2, tdhf_vind foo fvv orbo orbv vresp (some forbid)
        (h.read r).1 (h.read r).2)

/-- Helper: a buffer allocated at the end of the store followed by a write
to the fresh reference leaves every previously existing buffer unchanged. -/
theorem read_alloc_write_preserved {α : Type} [Zero α]
    (h : Store α) (v w : α) (r' : ℕ) (hr' : r' < h.length) :
    ((h.alloc v).1.write (h.alloc v).2 w).read r' = h.read r' := by
  unfold Store.alloc Store.write Store.read
  rw [List.getD_eq_getElem?_getD, List.getElem?_set_ne (by omega),
    List.getElem?_append_left hr', ← List.getD_eq_getElem?_getD]

/-- C10: for every trial buffer handed to the TDA or RPA apply operator and
every symmetry-filter setting, every buffer that existed before the call —
in particular the caller's trial buffer itself — holds the same value after
the call: the in-place masking happens only on the freshly allocated
private copy. -/
theorem vind_store_preserves_caller
    (foo : Matrix (Fin nocc) (Fin nocc) K) (fvv : Matrix (Fin nvir) (Fin nvir) K)
    (orbo : Matrix (Fin nao) (Fin nocc) K) (orbv : Matrix (Fin nao) (Fin nvir) K)
    (vresp : Matrix (Fin nao) (Fin nao) K → Matrix (Fin nao) (Fin nao) K)
    (sym : Option (Fin nocc → Fin nvir → Bool))
    (h1 : Store (Matrix (Fin nocc) (Fin nvir) K)) (r1 r1' : ℕ)
    (h2 : Store (Matrix (Fin nocc) (Fin nvir) K × Matrix (Fin nocc) (Fin nvir) K))
    (r2 r2' : ℕ)
    (hb1 : r1' < h1.length) (hb2 : r2' < h2.length) :
    (tda_vind_store foo fvv orbo orbv vresp sym h1 r1).1.read r1' = h1.read r1' ∧
    (tdhf_vind_store foo fvv orbo orbv vresp sym h2 r2).1.read r2' = h2.read r2' := by
  constructor
  · cases sym with
    | none => rfl
    | some forbid =>
        exact read_alloc_write_preserved h1 (h1.read r1) _ r1' hb1
  · cases sym with
    | none => rfl
    | some forbid =>
        exact read_alloc_write_preserved h2 (h2.read r2) _ r2' hb2

/-- Witness for C10: a one-buffer store on each side, an active filter that
forbids everything; the caller's buffer [[7]] (and the pair ([[7]], [[9]]))
is intact after the call. -/
theorem vind_store_preserves_caller_witness :
    (tda_vind_store !![(2 : ℚ)] !![(3 : ℚ)] !![(1 : ℚ)]
        !![(1 : ℚ)] (fun d => d) (some (fun _ _ => true)) [!![(7 : ℚ)]] 0).1.read 0
      = Store.read [!![(7 : ℚ)]] 0 ∧
    (tdhf_vind_store !![(2 : ℚ)] !![(3 : ℚ)] !![(1 : ℚ)]
        !![(1 : ℚ)] (fun d => d) (some (fun _ _ => true))
        [(!![(7 : ℚ)], !![(9 : ℚ)])] 0).1.read 0
      = Store.read [(!![(7 : ℚ)], !![(9 : ℚ)])] 0 :=
  vind_store_preserves_caller !![(2 : ℚ)] !![(3 : ℚ)] !![(1 : ℚ)] !![(1 : ℚ)]
    (fun d => d) (some (fun _ _ => true)) [!![(7 : ℚ)]] 0 0
    [(!![(7 : ℚ)], !![(9 : ℚ)])] 0 0 (by decide) (by decide)

end ClaimC10
